import Mathlib

/-!
# Verification of the concurrently-ui task orchestrator

Shallow embedding of `src/index.ts` (class `LogViewer`): the task registry,
log accumulation, selection, spinner advancement, exit handling with the
kill-propagation policy, and the shutdown sequence.  Pure state is modelled
by the `Task` and `LogViewer` structures; effectful calls that leave the
supervisor (kill signals, timer cancellation, process exit) are modelled as
explicit output lists of `Action`s.
-/

namespace ConcurrentlyUI

/-- Embeds the `Task` interface of `src/index.ts`:
`{ id, title, command, isRunning, logs, process?, exitCode? }`.
The optional pty handle `process?` is modelled by `hasProcess` (the
supervisor only ever tests its presence and requests `kill()` through it);
`spinnerIndex` models the per-task closure variable `spinnerIndex` created
in `startTasks` (initially `0`). -/
structure Task where
  id : String
  title : String
  command : String
  isRunning : Bool
  logs : List String
  hasProcess : Bool
  exitCode : Option Int
  spinnerIndex : Nat
  deriving Repr, DecidableEq

/-- Embeds `LogViewerOptions`: `{ commands, killOthers, killOthersOnFail }`. -/
structure LogViewerOptions where
  commands : List String
  killOthers : Bool
  killOthersOnFail : Bool
  deriving Repr, DecidableEq

/-- Embeds the mutable fields of class `LogViewer` that the claims are
about: `tasks`, `currentTaskIndex` (a JS number that the code assigns
without clamping, hence `Int`), `options` and `spinnerIntervals` (the list
of timer ids pushed in `startTasks`). -/
structure LogViewer where
  tasks : List Task
  currentTaskIndex : Int
  options : LogViewerOptions
  spinnerIntervals : List Nat
  deriving Repr, DecidableEq

/-- The `picocolors` helper `pc.yellow`: wraps the string in the ANSI color pair. -/
def yellow (s : String) : String := "\x1b[33m" ++ s ++ "\x1b[39m"

/-- The chunk pushed by the `onExit` handler:
``task.logs.push(`\n${pc.yellow(`Process exited with code ${exitCode}`)}`)``. -/
def exitMarker (code : Int) : String :=
  "\n" ++ yellow ("Process exited with code " ++ toString code)

/-- The `spinnerFrames` array created in `startTasks`. -/
def spinnerFrames : List String :=
  ["⠋", "⠙", "⠹", "⠸", "⠼",
   "⠴", "⠦", "⠧", "⠇", "⠏"]

/-- One element of `options.commands.map((command, index) => ...)` in the
`LogViewer` constructor. -/
def mkTask (command : String) (index : Nat) : Task :=
  { id := "task-" ++ toString index
    title := command
    command := command
    isRunning := true
    logs := []
    hasProcess := false
    exitCode := none
    spinnerIndex := 0 }

/-- The `LogViewer` constructor state: `currentTaskIndex = 0`, tasks built
from the commands, no timers yet (before `startTasks`). -/
def LogViewer.init (opts : LogViewerOptions) : LogViewer :=
  { tasks := (opts.commands.enum).map fun p => mkTask p.2 p.1
    currentTaskIndex := 0
    options := opts
    spinnerIntervals := [] }

/-- JS array indexing `tasks[i]` with a possibly negative or overlarge
number: out of range yields `undefined` (here `none`). -/
def listGetI (l : List Task) (i : Int) : Option Task :=
  if 0 ≤ i then l.get? i.toNat else none

/-- Embeds `killAllTasks`: iterates the registry and signals every task with
`task.isRunning && task.process`.  Returns the indices signalled, in
registry order; the supervisor state itself is unchanged. -/
def killAllTasks (tasks : List Task) : List Nat :=
  (List.range tasks.length).filter fun i =>
    match tasks.get? i with
    | some t => t.isRunning && t.hasProcess
    | none => false

/-- The state mutation of the `onExit` handler on its own task:
`task.isRunning = false; task.exitCode = exitCode; task.logs.push(marker)`. -/
def applyExit (code : Int) (t : Task) : Task :=
  { t with isRunning := false, exitCode := some code,
           logs := t.logs ++ [exitMarker code] }

/-- The `p.onData` handler for task `i`: `task.logs.push(data)`
(the conditional `updateLogBox` is a pure repaint and changes no state). -/
def onData (s : LogViewer) (i : Nat) (data : String) : LogViewer :=
  match s.tasks.get? i with
  | none => s
  | some t =>
      { s with tasks := s.tasks.set i { t with logs := t.logs ++ [data] } }

/-- The `p.onExit` handler for task `i`: marks the task exited, appends the
terminal marker, then evaluates the kill policy
`(killOthers && exitCode === 0) || (killOthersOnFail && exitCode !== 0)`
and, when it holds, invokes `killAllTasks`.  Returns the new state and the
kill signals issued. -/
def onExit (s : LogViewer) (i : Nat) (code : Int) : LogViewer × List Nat :=
  match s.tasks.get? i with
  | none => (s, [])
  | some t =>
      let s' : LogViewer := { s with tasks := s.tasks.set i (applyExit code t) }
      let kills :=
        if (s.options.killOthers && code == 0) ||
           (s.options.killOthersOnFail && code != 0) then
          killAllTasks s'.tasks
        else []
      (s', kills)

/-- Embeds `handleTaskSelect`: `this.currentTaskIndex = index; this.updateLogBox()`.
The index is stored as given — the source contains no clamping. -/
def handleTaskSelect (s : LogViewer) (index : Int) : LogViewer :=
  { s with currentTaskIndex := index }

/-- The content `updateLogBox` paints:
`this.tasks[this.currentTaskIndex].logs.join('\n')`; `none` when the
selection indexes no task (in JS this dereferences `undefined`). -/
def updateLogBoxContent (s : LogViewer) : Option String :=
  (listGetI s.tasks s.currentTaskIndex).map fun t =>
    String.intercalate "\n" t.logs

/-- One spinner timer tick for task `i`: the interval callback advances
`spinnerIndex = (spinnerIndex + 1) % spinnerFrames.length` only when
`task.isRunning`, else changes nothing. -/
def tickTask (s : LogViewer) (i : Nat) : LogViewer :=
  match s.tasks.get? i with
  | none => s
  | some t =>
      if t.isRunning then
        let t' := { t with spinnerIndex := (t.spinnerIndex + 1) % spinnerFrames.length }
        { s with tasks := s.tasks.set i t' }
      else s

/-- The events the supervisor loop reacts to, one at a time (§5 of the
design: output chunk, process exit, spinner tick, selection input). -/
inductive Event where
  | data (i : Nat) (chunk : String)
  | exit (i : Nat) (code : Int)
  | select (i : Int)
  | tick (i : Nat)
  deriving Repr, DecidableEq

/-- Dispatch one event to its handler; the second component is the list of
kill signals the handler issued. -/
def step (s : LogViewer) (e : Event) : LogViewer × List Nat :=
  match e with
  | .data i c => (onData s i c, [])
  | .exit i c => onExit s i c
  | .select i => (handleTaskSelect s i, [])
  | .tick i => (tickTask s i, [])

/-- Run a sequence of events (the single-threaded event loop). -/
def run (s : LogViewer) : List Event → LogViewer
  | [] => s
  | e :: es => run (step s e).1 es

/-- Process a list of exit events `(task index, code)` in order, collecting
every kill signal issued along the way. -/
def processExits (s : LogViewer) : List (Nat × Int) → LogViewer × List Nat
  | [] => (s, [])
  | (i, c) :: rest =>
      let r := onExit s i c
      let r' := processExits r.1 rest
      (r'.1, r.2 ++ r'.2)

/-- The body of `startTasks`: `this.tasks.forEach((task, index) => ...)`.
`pty.spawn` is abstracted by the oracle `spawnOk`; on success the handle is
attached (`task.process = p`, modelled by `hasProcess := true`).  The source
wraps the spawn in no `try`/`catch`, so a throwing spawn stops the
`forEach`: the remaining tasks are left untouched and the exception message
is returned alongside the partially mutated registry.  `i` is the index of
the first task of the remaining list. -/
def startTasksGo (spawnOk : Nat → Bool) : Nat → List Task → List Task × Option String
  | _, [] => ([], none)
  | i, t :: rest =>
      if t.isRunning then
        if spawnOk i then
          let r := startTasksGo spawnOk (i + 1) rest
          ({ t with hasProcess := true } :: r.1, r.2)
        else
          (t :: rest, some ("spawn threw for task " ++ toString i))
      else
        let r := startTasksGo spawnOk (i + 1) rest
        (t :: r.1, r.2)

/-- The whole of `startTasks` over the registry (also registers one spinner timer
per started task; timer ids are the task indices). -/
def startTasks (spawnOk : Nat → Bool) (s : LogViewer) : LogViewer × Option String :=
  let r := startTasksGo spawnOk 0 s.tasks
  ({ s with tasks := r.1,
            spinnerIntervals := List.range r.1.length }, r.2)

/-- The chunks a trace delivers to task `i`, in order (the `onData`
payloads addressed to `i`). -/
def chunksFor (i : Nat) (es : List Event) : List String :=
  es.filterMap fun e =>
    match e with
    | .data j c => if j = i then some c else none
    | _ => none

/-- First exit code recorded for task `j` in a list of exit events. -/
def lookupExit (j : Nat) : List (Nat × Int) → Option Int
  | [] => none
  | (i, c) :: rest => if i = j then some c else lookupExit j rest

/-- The externally visible effects of the shutdown path. -/
inductive Action where
  | clearTimer (id : Nat)
  | kill (taskIdx : Nat)
  | exitProcess (status : Nat)
  deriving Repr, DecidableEq

/-- Embeds `cleanup`: `this.spinnerIntervals.forEach(clearInterval)` then
`this.killAllTasks()`, as the ordered list of effects it performs. -/
def cleanup (s : LogViewer) : List Action :=
  s.spinnerIntervals.map Action.clearTimer ++ (killAllTasks s.tasks).map Action.kill

/-- The `q` / `C-c` key handler: `this.cleanup(); process.exit(0)`. -/
def quitHandler (s : LogViewer) : List Action :=
  cleanup s ++ [Action.exitProcess 0]

/-- Orders the shutdown effects: timer cancellation, then kill signals,
then process termination. -/
def shutdownPhase : Action → Nat
  | .clearTimer _ => 0
  | .kill _ => 1
  | .exitProcess _ => 2

/-- A three-command invocation with `--kill-others-on-fail`. -/
def optsFail3 : LogViewerOptions :=
  { commands := ["cmd0", "cmd1", "cmd2"], killOthers := false, killOthersOnFail := true }

/-- The three-task state right after construction and a fully successful
`startTasks`. -/
def stateFail3 : LogViewer := (startTasks (fun _ => true) (LogViewer.init optsFail3)).1

/-- Task `0` of `stateFail3`. -/
def task0Fail3 : Task := { mkTask "cmd0" 0 with hasProcess := true }

/-- Task `1` of `stateFail3`. -/
def task1Fail3 : Task := { mkTask "cmd1" 1 with hasProcess := true }

/-- A two-command invocation with both kill flags off. -/
def optsTwo : LogViewerOptions :=
  { commands := ["a", "b"], killOthers := false, killOthersOnFail := false }

/-- The two-task state right after construction and a fully successful
`startTasks`. -/
def stateTwo : LogViewer := (startTasks (fun _ => true) (LogViewer.init optsTwo)).1

/-! ## Supporting lemmas -/

lemma get?_some_lt {α : Type} {l : List α} {n : Nat} {a : α}
    (h : l.get? n = some a) : n < l.length :=
  (List.get?_eq_some.1 h).1

/-- Membership in the kill broadcast: exactly the registry indices whose
task is still running and holds a process handle. -/
lemma killAllTasks_mem (ts : List Task) (j : Nat) :
    j ∈ killAllTasks ts ↔
      ∃ t, ts.get? j = some t ∧ t.isRunning = true ∧ t.hasProcess = true := by
  unfold killAllTasks
  rw [List.mem_filter, List.mem_range]
  constructor
  · rintro ⟨hj, hm⟩
    cases hts : ts.get? j with
    | none => rw [hts] at hm; cases hm
    | some t =>
        rw [hts] at hm
        exact ⟨t, rfl, by simpa using hm⟩
  · rintro ⟨t, hts, h1, h2⟩
    refine ⟨get?_some_lt hts, ?_⟩
    rw [hts]
    simp [h1, h2]

lemma onExit_fst (s : LogViewer) (i : Nat) (c : Int) (t : Task)
    (ht : s.tasks.get? i = some t) :
    (onExit s i c).1 = { s with tasks := s.tasks.set i (applyExit c t) } := by
  unfold onExit
  rw [ht]

lemma onExit_snd (s : LogViewer) (i : Nat) (c : Int) (t : Task)
    (ht : s.tasks.get? i = some t) :
    (onExit s i c).2 =
      if (s.options.killOthers && c == 0) || (s.options.killOthersOnFail && c != 0)
      then killAllTasks (s.tasks.set i (applyExit c t)) else [] := by
  unfold onExit
  rw [ht]

/-- The boolean policy test of `onExit` as a proposition. -/
lemma killPolicy_iff (s : LogViewer) (c : Int) :
    ((s.options.killOthers && c == 0) ||
     (s.options.killOthersOnFail && c != 0)) = true ↔
      ((s.options.killOthers = true ∧ c = 0) ∨
       (s.options.killOthersOnFail = true ∧ c ≠ 0)) := by
  simp [Bool.or_eq_true, Bool.and_eq_true, beq_iff_eq, bne_iff_ne]

/-! ## C1: the kill policy on task exit -/

/-- C1: on an exit event with code `c`, kill signals are issued iff
(`killOthers` and `c = 0`) or (`killOthersOnFail` and `c ≠ 0`); a signal
goes exactly to every *other* task still running at that moment (given
that, as `startTasks` establishes, every running task holds its process
handle), and no signal is issued when the policy does not fire. -/
theorem onExit_kill_policy (s : LogViewer) (i : Nat) (code : Int) (t : Task)
    (ht : s.tasks.get? i = some t)
    (hp : ∀ u ∈ s.tasks, u.isRunning = true → u.hasProcess = true) (j : Nat) :
    j ∈ (onExit s i code).2 ↔
      (((s.options.killOthers = true ∧ code = 0) ∨
        (s.options.killOthersOnFail = true ∧ code ≠ 0)) ∧
       j ≠ i ∧ ∃ u, s.tasks.get? j = some u ∧ u.isRunning = true) := by
  rw [onExit_snd s i code t ht]
  by_cases hpol : ((s.options.killOthers && code == 0) ||
      (s.options.killOthersOnFail && code != 0)) = true
  · rw [if_pos hpol, killAllTasks_mem]
    constructor
    · rintro ⟨u, hu, hur, hup⟩
      by_cases hji : j = i
      · subst hji
        rw [List.get?_set_eq, ht] at hu
        have : u = applyExit code t := by
          simpa using hu.symm
        rw [this] at hur
        simp [applyExit] at hur
      · rw [List.get?_set_ne _ _ (Ne.symm hji)] at hu
        exact ⟨(killPolicy_iff s code).1 hpol, hji, u, hu, hur⟩
    · rintro ⟨_, hji, u, hu, hur⟩
      refine ⟨u, ?_, hur, hp u (List.get?_mem hu) hur⟩
      rw [List.get?_set_ne _ _ (Ne.symm hji)]
      exact hu
  · rw [if_neg hpol]
    simp only [List.not_mem_nil, false_iff]
    rintro ⟨hpolP, _⟩
    exact hpol ((killPolicy_iff s code).2 hpolP)

/-- Concrete instance of C1: three tasks under `--kill-others-on-fail`,
task 0 exits with code 1, and task 1 (still running) is signalled. -/
theorem onExit_kill_policy_witness : 1 ∈ (onExit stateFail3 0 1).2 :=
  (onExit_kill_policy stateFail3 0 1 task0Fail3 (by decide) (by decide) 1).2
    ⟨Or.inr ⟨by decide, by decide⟩, by decide, task1Fail3, by decide, by decide⟩

/-! ## Event-step preservation lemmas -/

lemma onExit_fst_none (s : LogViewer) (j : Nat) (c : Int)
    (h : s.tasks.get? j = none) : (onExit s j c).1 = s := by
  unfold onExit
  rw [h]

lemma onData_none (s : LogViewer) (j : Nat) (c : String)
    (h : s.tasks.get? j = none) : onData s j c = s := by
  unfold onData
  rw [h]

lemma onData_get?_ne (s : LogViewer) (j : Nat) (c : String) (i : Nat)
    (hij : j ≠ i) : (onData s j c).tasks.get? i = s.tasks.get? i := by
  unfold onData
  cases h : s.tasks.get? j with
  | none => rfl
  | some t => exact List.get?_set_ne _ _ hij

lemma onExit_get?_ne (s : LogViewer) (j : Nat) (c : Int) (i : Nat)
    (hij : j ≠ i) : (onExit s j c).1.tasks.get? i = s.tasks.get? i := by
  cases h : s.tasks.get? j with
  | none => rw [onExit_fst_none s j c h]
  | some t =>
      rw [onExit_fst s j c t h]
      exact List.get?_set_ne _ _ hij

lemma tickTask_get?_ne (s : LogViewer) (j i : Nat) (hij : j ≠ i) :
    (tickTask s j).tasks.get? i = s.tasks.get? i := by
  unfold tickTask
  split
  · rfl
  · split
    · exact List.get?_set_ne _ _ hij
    · rfl

lemma tickTask_exited (s : LogViewer) (i : Nat) (t : Task)
    (ht : s.tasks.get? i = some t) (hex : t.isRunning = false) :
    tickTask s i = s := by
  unfold tickTask
  split
  · rfl
  · rename_i u heq
    have hut : u = t := by
      rw [heq] at ht
      exact Option.some.inj ht
    subst hut
    rw [if_neg (by rw [hex]; exact Bool.false_ne_true)]

lemma run_cons (s : LogViewer) (e : Event) (es : List Event) :
    run s (e :: es) = run (step s e).1 es := rfl

/-- An exited task whose handle emits no further events is never touched
again by the loop: other tasks' events and its own spinner ticks leave it
unchanged. -/
lemma run_preserves_exited (s : LogViewer) (es : List Event) (i : Nat) (t : Task)
    (ht : s.tasks.get? i = some t) (hex : t.isRunning = false)
    (hnd : ∀ c : String, Event.data i c ∉ es)
    (hne : ∀ c : Int, Event.exit i c ∉ es) :
    (run s es).tasks.get? i = some t := by
  induction es generalizing s with
  | nil => simpa [run] using ht
  | cons e rest ih =>
      rw [run_cons]
      have hnd' : ∀ c : String, Event.data i c ∉ rest :=
        fun c hc => hnd c (List.mem_cons_of_mem _ hc)
      have hne' : ∀ c : Int, Event.exit i c ∉ rest :=
        fun c hc => hne c (List.mem_cons_of_mem _ hc)
      have hstep : (step s e).1.tasks.get? i = some t := by
        cases e with
        | data j c =>
            have hij : j ≠ i := by
              rintro rfl
              exact hnd c (List.mem_cons_self _ _)
            rw [show (step s (Event.data j c)).1 = onData s j c from rfl]
            rw [onData_get?_ne s j c i hij]
            exact ht
        | exit j c =>
            have hij : j ≠ i := by
              rintro rfl
              exact hne c (List.mem_cons_self _ _)
            rw [show (step s (Event.exit j c)).1 = (onExit s j c).1 from rfl]
            rw [onExit_get?_ne s j c i hij]
            exact ht
        | select k => exact ht
        | tick j =>
            rw [show (step s (Event.tick j)).1 = tickTask s j from rfl]
            by_cases hij : j = i
            · subst hij
              rw [tickTask_exited s j t ht hex]
              exact ht
            · rw [tickTask_get?_ne s j i hij]
              exact ht
      exact ih _ hstep hnd' hne'

/-! ## C6: the Running to Exited transition -/

/-- C6: processing an exit event with code `c` stores state Exited with
exit code `c` and appends exactly one marker chunk containing
"Process exited with code c"; no event handler ever returns an exited task
to running; and once exited — its handle emitting nothing further — the
task (in particular its log) is never modified again. -/
theorem exit_transition_spec :
    (∀ (s : LogViewer) (i : Nat) (c : Int) (t : Task),
        s.tasks.get? i = some t →
        (onExit s i c).1.tasks.get? i = some (applyExit c t) ∧
        (applyExit c t).isRunning = false ∧
        (applyExit c t).exitCode = some c ∧
        (applyExit c t).logs = t.logs ++ [exitMarker c] ∧
        ∃ pre post, exitMarker c =
          pre ++ ("Process exited with code " ++ toString c) ++ post) ∧
    (∀ (s : LogViewer) (e : Event) (i : Nat) (t t' : Task),
        s.tasks.get? i = some t → t.isRunning = false →
        (step s e).1.tasks.get? i = some t' → t'.isRunning = false) ∧
    (∀ (s : LogViewer) (es : List Event) (i : Nat) (t : Task),
        s.tasks.get? i = some t → t.isRunning = false →
        (∀ c : String, Event.data i c ∉ es) →
        (∀ c : Int, Event.exit i c ∉ es) →
        (run s es).tasks.get? i = some t) := by
  refine ⟨?_, ?_, ?_⟩
  · intro s i c t ht
    refine ⟨?_, rfl, rfl, rfl, "\n" ++ "\x1b[33m", "\x1b[39m", ?_⟩
    · rw [onExit_fst s i c t ht]
      show (s.tasks.set i (applyExit c t)).get? i = _
      rw [List.get?_set_eq, ht]
      rfl
    · show "\n" ++ yellow _ = _
      unfold yellow
      conv_lhs => rw [String.append_assoc]
      conv_rhs => rw [String.append_assoc, String.append_assoc]
  · intro s e i t t' ht hex hstep
    cases e with
    | data j c =>
        by_cases hij : j = i
        · subst hij
          have : (onData s j c).tasks.get? j =
              some { t with logs := t.logs ++ [c] } := by
            unfold onData
            rw [ht]
            show (s.tasks.set j _).get? j = _
            rw [List.get?_set_eq, ht]
            rfl
          rw [show (step s (Event.data j c)).1 = onData s j c from rfl, this] at hstep
          cases hstep
          exact hex
        · rw [show (step s (Event.data j c)).1 = onData s j c from rfl,
              onData_get?_ne s j c i hij, ht] at hstep
          cases hstep
          exact hex
    | exit j c =>
        by_cases hij : j = i
        · subst hij
          have : (onExit s j c).1.tasks.get? j = some (applyExit c t) := by
            rw [onExit_fst s j c t ht]
            show (s.tasks.set j _).get? j = _
            rw [List.get?_set_eq, ht]
            rfl
          rw [show (step s (Event.exit j c)).1 = (onExit s j c).1 from rfl, this] at hstep
          cases hstep
          rfl
        · rw [show (step s (Event.exit j c)).1 = (onExit s j c).1 from rfl,
              onExit_get?_ne s j c i hij, ht] at hstep
          cases hstep
          exact hex
    | select k =>
        rw [show (step s (Event.select k)).1 = handleTaskSelect s k from rfl] at hstep
        rw [show (handleTaskSelect s k).tasks = s.tasks from rfl, ht] at hstep
        cases hstep
        exact hex
    | tick j =>
        rw [show (step s (Event.tick j)).1 = tickTask s j from rfl] at hstep
        by_cases hij : j = i
        · subst hij
          rw [tickTask_exited s j t ht hex, ht] at hstep
          cases hstep
          exact hex
        · rw [tickTask_get?_ne s j i hij, ht] at hstep
          cases hstep
          exact hex
  · exact fun s es i t ht hex hnd hne => run_preserves_exited s es i t ht hex hnd hne

/-- Task `0` of `stateTwo`. -/
def task0Two : Task := { mkTask "a" 0 with hasProcess := true }

/-- Concrete instance of C6: in the two-task state, task 0 exits with
code 0 and the resulting record is exactly the exited version; afterwards a
trace touching only task 1 leaves it untouched. -/
theorem exit_transition_spec_witness :
    (onExit stateTwo 0 0).1.tasks.get? 0 = some (applyExit 0 task0Two) ∧
    (run (onExit stateTwo 0 0).1
        [Event.data 1 "x", Event.tick 0, Event.select 1]).tasks.get? 0 =
      some (applyExit 0 task0Two) := by
  have h1 := (exit_transition_spec.1 stateTwo 0 0 task0Two (by decide)).1
  refine ⟨h1, exit_transition_spec.2.2 _ _ 0 (applyExit 0 task0Two) h1 (by decide)
    (by intro c; simp) (by intro c; simp)⟩

/-! ## C7: chunk delivery into the log -/

lemma chunksFor_data_cons (i j : Nat) (c : String) (es : List Event) :
    chunksFor i (Event.data j c :: es) =
      if j = i then c :: chunksFor i es else chunksFor i es := by
  by_cases h : j = i
  · subst h
    simp [chunksFor, List.filterMap_cons]
  · simp [chunksFor, List.filterMap_cons, h]

lemma chunksFor_exit_cons (i j : Nat) (c : Int) (es : List Event) :
    chunksFor i (Event.exit j c :: es) = chunksFor i es := by
  unfold chunksFor
  rw [List.filterMap_cons]

lemma chunksFor_select_cons (i : Nat) (k : Int) (es : List Event) :
    chunksFor i (Event.select k :: es) = chunksFor i es := by
  unfold chunksFor
  rw [List.filterMap_cons]

lemma chunksFor_tick_cons (i j : Nat) (es : List Event) :
    chunksFor i (Event.tick j :: es) = chunksFor i es := by
  unfold chunksFor
  rw [List.filterMap_cons]

lemma onData_get?_eq (s : LogViewer) (i : Nat) (c : String) (t : Task)
    (ht : s.tasks.get? i = some t) :
    (onData s i c).tasks.get? i = some { t with logs := t.logs ++ [c] } := by
  unfold onData
  rw [ht]
  show (s.tasks.set i _).get? i = _
  rw [List.get?_set_eq, ht]
  rfl

lemma tickTask_get?_eq (s : LogViewer) (i : Nat) (t : Task)
    (ht : s.tasks.get? i = some t) (hr : t.isRunning = true) :
    (tickTask s i).tasks.get? i =
      some { t with spinnerIndex := (t.spinnerIndex + 1) % spinnerFrames.length } := by
  unfold tickTask
  split
  · rename_i heq
    rw [heq] at ht
    exact Option.noConfusion ht
  · rename_i u heq
    have hut : u = t := by
      rw [heq] at ht
      exact Option.some.inj ht
    subst hut
    rw [if_pos hr]
    show (s.tasks.set i _).get? i = _
    rw [List.get?_set_eq, ht]
    rfl

/-- C7: as long as a task's handle has not reported exit, the task's log is
its initial log followed by exactly the chunks delivered to it, in delivery
order — each exactly once, none dropped, none reordered, whatever other
events are interleaved. -/
theorem log_receives_chunks_in_order (s : LogViewer) (es : List Event) (i : Nat)
    (t : Task) (ht : s.tasks.get? i = some t)
    (hne : ∀ c : Int, Event.exit i c ∉ es) :
    ∃ t', (run s es).tasks.get? i = some t' ∧
      t'.logs = t.logs ++ chunksFor i es := by
  induction es generalizing s t with
  | nil => exact ⟨t, by simpa [run] using ht, by simp [chunksFor]⟩
  | cons e rest ih =>
      rw [run_cons]
      have hne' : ∀ c : Int, Event.exit i c ∉ rest :=
        fun c hc => hne c (List.mem_cons_of_mem _ hc)
      cases e with
      | data j c =>
          by_cases hij : j = i
          · subst hij
            have hstep := onData_get?_eq s j c t ht
            obtain ⟨t', h1, h2⟩ := ih (onData s j c)
              { t with logs := t.logs ++ [c] } hstep hne'
            refine ⟨t', h1, ?_⟩
            rw [h2, chunksFor_data_cons, if_pos rfl]
            simp [List.append_assoc]
          · have hstep : (onData s j c).tasks.get? i = some t := by
              rw [onData_get?_ne s j c i hij]
              exact ht
            obtain ⟨t', h1, h2⟩ := ih (onData s j c) t hstep hne'
            refine ⟨t', h1, ?_⟩
            rw [h2, chunksFor_data_cons, if_neg hij]
      | exit j c =>
          have hij : j ≠ i := by
            rintro rfl
            exact hne c (List.mem_cons_self _ _)
          have hstep : (onExit s j c).1.tasks.get? i = some t := by
            rw [onExit_get?_ne s j c i hij]
            exact ht
          obtain ⟨t', h1, h2⟩ := ih (onExit s j c).1 t hstep hne'
          exact ⟨t', h1, by rw [h2, chunksFor_exit_cons]⟩
      | select k =>
          obtain ⟨t', h1, h2⟩ := ih (handleTaskSelect s k) t ht hne'
          exact ⟨t', h1, by rw [h2, chunksFor_select_cons]⟩
      | tick j =>
          by_cases hij : j = i
          · subst hij
            by_cases hr : t.isRunning = true
            · have hstep := tickTask_get?_eq s j t ht hr
              obtain ⟨t', h1, h2⟩ := ih (tickTask s j) _ hstep hne'
              exact ⟨t', h1, by rw [h2, chunksFor_tick_cons]⟩
            · have hstep : (tickTask s j).tasks.get? j = some t := by
                rw [tickTask_exited s j t ht (Bool.eq_false_iff.2 hr)]
                exact ht
              obtain ⟨t', h1, h2⟩ := ih (tickTask s j) t hstep hne'
              exact ⟨t', h1, by rw [h2, chunksFor_tick_cons]⟩
          · have hstep : (tickTask s j).tasks.get? i = some t := by
              rw [tickTask_get?_ne s j i hij]
              exact ht
            obtain ⟨t', h1, h2⟩ := ih (tickTask s j) t hstep hne'
            exact ⟨t', h1, by rw [h2, chunksFor_tick_cons]⟩

/-- Concrete instance of C7: two chunks delivered to task 0 with other
events interleaved end up, in order, as its whole log. -/
theorem log_receives_chunks_in_order_witness :
    ∃ t', (run stateTwo
        [Event.data 0 "x", Event.tick 1, Event.data 1 "z",
         Event.select 1, Event.data 0 "y"]).tasks.get? 0 = some t' ∧
      t'.logs = task0Two.logs ++
        chunksFor 0
          [Event.data 0 "x", Event.tick 1, Event.data 1 "z",
           Event.select 1, Event.data 0 "y"] :=
  log_receives_chunks_in_order stateTwo
    [Event.data 0 "x", Event.tick 1, Event.data 1 "z",
     Event.select 1, Event.data 0 "y"] 0 task0Two (by decide)
    (by intro c; simp)

/-! ## C8: spinner advancement -/

/-- C8: a tick received while the task is running advances its spinner
frame index by exactly one modulo the frame-set size (which is 10), and
once the task has exited every further tick leaves the whole state — in
particular the frame index — unchanged, however many ticks follow. -/
theorem spinner_tick_spec (s : LogViewer) (i : Nat) (t : Task)
    (ht : s.tasks.get? i = some t) :
    (t.isRunning = true →
      (tickTask s i).tasks.get? i =
        some { t with spinnerIndex := (t.spinnerIndex + 1) % spinnerFrames.length } ∧
      spinnerFrames.length = 10) ∧
    (t.isRunning = false →
      ∀ n : Nat, Nat.iterate (fun st => tickTask st i) n s = s) := by
  constructor
  · intro hr
    exact ⟨tickTask_get?_eq s i t ht hr, rfl⟩
  · intro hex n
    induction n with
    | zero => rfl
    | succ n ihn =>
        rw [Function.iterate_succ_apply]
        show Nat.iterate _ n (tickTask s i) = s
        rw [tickTask_exited s i t ht hex]
        exact ihn

/-- Concrete instance of C8: one tick on running task 0 of `stateTwo`
advances its frame index from 0 to 1; after task 0 exits, three further
ticks change nothing. -/
theorem spinner_tick_spec_witness :
    ((tickTask stateTwo 0).tasks.get? 0 =
      some { task0Two with spinnerIndex := (task0Two.spinnerIndex + 1) % spinnerFrames.length }) ∧
    Nat.iterate (fun st => tickTask st 0) 3 (onExit stateTwo 0 0).1 =
      (onExit stateTwo 0 0).1 := by
  constructor
  · exact ((spinner_tick_spec stateTwo 0 task0Two (by decide)).1 (by decide)).1
  · exact (spinner_tick_spec (onExit stateTwo 0 0).1 0 (applyExit 0 task0Two)
      (by decide)).2 (by decide) 3

/-! ## C9: the shutdown sequence on quit -/

lemma pairwise_trivial {α : Type} {R : α → α → Prop} (h : ∀ a b, R a b)
    (l : List α) : l.Pairwise R := by
  induction l with
  | nil => exact List.Pairwise.nil
  | cons a l ih => exact List.Pairwise.cons (fun b _ => h a b) ih

/-- C9: the quit handler first cancels every spinner timer, then sends a
kill to exactly the tasks still running at that moment (each of which, post
`startTasks`, holds its handle), and terminates the process with status 0
as its very last action; phases never interleave out of order. -/
theorem quit_shutdown_spec (s : LogViewer)
    (hp : ∀ u ∈ s.tasks, u.isRunning = true → u.hasProcess = true) :
    List.Pairwise (· ≤ ·) ((quitHandler s).map shutdownPhase) ∧
    (∀ tid ∈ s.spinnerIntervals, Action.clearTimer tid ∈ quitHandler s) ∧
    (∀ j, Action.kill j ∈ quitHandler s ↔
      ∃ u, s.tasks.get? j = some u ∧ u.isRunning = true) ∧
    (quitHandler s).getLast? = some (Action.exitProcess 0) ∧
    (∀ c, Action.exitProcess c ∈ quitHandler s → c = 0) := by
  refine ⟨?_, ?_, ?_, ?_, ?_⟩
  · unfold quitHandler cleanup
    rw [List.map_append, List.map_append, List.pairwise_append, List.pairwise_append]
    refine ⟨⟨?_, ?_, ?_⟩, ?_, ?_⟩
    · rw [List.map_map, List.pairwise_map]
      exact pairwise_trivial (fun a b => le_refl 0) _
    · rw [List.map_map, List.pairwise_map]
      exact pairwise_trivial (fun a b => le_refl 1) _
    · intro a ha b hb
      rw [List.map_map, List.mem_map] at ha hb
      obtain ⟨x, _, hx⟩ := ha
      obtain ⟨y, _, hy⟩ := hb
      rw [← hx, ← hy]
      show shutdownPhase (Action.clearTimer x) ≤ shutdownPhase (Action.kill y)
      exact Nat.zero_le 1
    · simp
    · intro a ha b hb
      rw [List.mem_append] at ha
      simp only [List.map_map, List.mem_map] at ha
      simp only [List.map, List.mem_singleton] at hb
      subst hb
      rcases ha with ⟨x, _, hx⟩ | ⟨x, _, hx⟩
      · rw [← hx]
        show shutdownPhase (Action.clearTimer x) ≤ shutdownPhase (Action.exitProcess 0)
        exact Nat.zero_le 2
      · rw [← hx]
        show shutdownPhase (Action.kill x) ≤ shutdownPhase (Action.exitProcess 0)
        exact Nat.le_succ 1
  · intro tid htid
    unfold quitHandler cleanup
    rw [List.mem_append, List.mem_append]
    exact Or.inl (Or.inl (List.mem_map.2 ⟨tid, htid, rfl⟩))
  · intro j
    unfold quitHandler cleanup
    rw [List.mem_append, List.mem_append]
    constructor
    · rintro ((h | h) | h)
      · obtain ⟨x, _, hx⟩ := List.mem_map.1 h
        exact Action.noConfusion hx
      · obtain ⟨x, hxmem, hx⟩ := List.mem_map.1 h
        have hxj : x = j := by
          cases hx
          rfl
        subst hxj
        obtain ⟨u, hu, hur, _⟩ := (killAllTasks_mem s.tasks x).1 hxmem
        exact ⟨u, hu, hur⟩
      · rw [List.mem_singleton] at h
        exact Action.noConfusion h
    · rintro ⟨u, hu, hur⟩
      exact Or.inl (Or.inr (List.mem_map.2
        ⟨j, (killAllTasks_mem s.tasks j).2 ⟨u, hu, hur, hp u (List.get?_mem hu) hur⟩, rfl⟩))
  · exact List.getLast?_concat _
  · intro c hc
    unfold quitHandler cleanup at hc
    rw [List.mem_append, List.mem_append] at hc
    rcases hc with (h | h) | h
    · obtain ⟨x, _, hx⟩ := List.mem_map.1 h
      exact Action.noConfusion hx
    · obtain ⟨x, _, hx⟩ := List.mem_map.1 h
      exact Action.noConfusion hx
    · rw [List.mem_singleton] at h
      cases h
      rfl

/-- Concrete instance of C9: shutting stateTwo down cancels the timers
before any kill, kills running task 1, and ends with `exit 0`. -/
theorem quit_shutdown_spec_witness :
    Action.kill 1 ∈ quitHandler stateTwo ∧
    (quitHandler stateTwo).getLast? = some (Action.exitProcess 0) := by
  have h := quit_shutdown_spec stateTwo (by decide)
  exact ⟨(h.2.2.1 1).2 ⟨{ mkTask "b" 1 with hasProcess := true }, by decide, by decide⟩,
    h.2.2.2.1⟩

/-! ## C10: initial selection -/

/-- C10: right after construction the selection index is `0` and the log
pane initially renders task 0's still-empty log (the constructor runs
`initializeUI`, whose initial `updateLogBox()` reads the selected task). -/
theorem initial_selection (opts : LogViewerOptions) (h : opts.commands ≠ []) :
    (LogViewer.init opts).currentTaskIndex = 0 ∧
    updateLogBoxContent (LogViewer.init opts) = some "" ∧
    ∃ t, (LogViewer.init opts).tasks.get? 0 = some t ∧ t.logs = [] := by
  obtain ⟨cmds, ko, kof⟩ := opts
  cases cmds with
  | nil => exact absurd rfl h
  | cons c cs => exact ⟨rfl, rfl, mkTask c 0, rfl, rfl⟩

/-- Concrete instance of C10 on the two-command invocation. -/
theorem initial_selection_witness :
    (LogViewer.init optsTwo).currentTaskIndex = 0 ∧
    updateLogBoxContent (LogViewer.init optsTwo) = some "" ∧
    ∃ t, (LogViewer.init optsTwo).tasks.get? 0 = some t ∧ t.logs = [] :=
  initial_selection optsTwo (by decide)

/-! ## C5: selection is stored without clamping (correcting the claim) -/

/-- Refutes C5 as stated: on a two-task registry, selecting index 5 stores
5, which is outside `[0, 1]`, and the subsequent log-pane read dereferences
no task at all. -/
theorem selection_clamp_cex :
    (handleTaskSelect (LogViewer.init optsTwo) 5).currentTaskIndex = 5 ∧
    (LogViewer.init optsTwo).tasks.length = 2 ∧
    ¬((handleTaskSelect (LogViewer.init optsTwo) 5).currentTaskIndex < 2) ∧
    updateLogBoxContent (handleTaskSelect (LogViewer.init optsTwo) 5) = none := by
  refine ⟨rfl, rfl, by decide, rfl⟩

/-- C5 amended: `handleTaskSelect` stores the given index verbatim — the
source performs no clamping — so the stored selection lies in `[0, N-1]`
exactly when the input does, and the log-pane read resolves a task exactly
under that condition. -/
theorem handleTaskSelect_no_clamp (s : LogViewer) (i : Int) :
    (handleTaskSelect s i).currentTaskIndex = i ∧
    ((updateLogBoxContent (handleTaskSelect s i)).isSome = true ↔
      0 ≤ i ∧ i.toNat < s.tasks.length) := by
  refine ⟨rfl, ?_⟩
  unfold updateLogBoxContent listGetI handleTaskSelect
  by_cases h : (0 : Int) ≤ i
  · rw [if_pos h]
    show ((s.tasks.get? i.toNat).map _).isSome = true ↔ _
    have hmap : ∀ (o : Option Task) (f : Task → String), (o.map f).isSome = o.isSome := by
      intro o f
      cases o <;> rfl
    rw [hmap, Option.isSome_iff_exists]
    constructor
    · rintro ⟨a, ha⟩
      exact ⟨h, (List.get?_eq_some.1 ha).1⟩
    · rintro ⟨_, hlt⟩
      exact ⟨s.tasks.get ⟨i.toNat, hlt⟩, List.get?_eq_get hlt⟩
  · rw [if_neg h]
    show (Option.map _ none).isSome = true ↔ _
    constructor
    · intro hc
      cases hc
    · rintro ⟨h0, _⟩
      exact absurd h0 h

/-! ## C4: the log pane inserts newline separators (correcting the claim) -/

/-- Refutes C4 as stated: after chunks "a" then "b" arrive for the selected
task, the pane shows the newline-joined "a\nb" (the source uses `join('\n')`), not the
verbatim concatenation "ab". -/
theorem display_newline_cex :
    updateLogBoxContent (run stateTwo [Event.data 0 "a", Event.data 0 "b"]) =
      some "a\nb" ∧
    updateLogBoxContent (run stateTwo [Event.data 0 "a", Event.data 0 "b"]) ≠
      some ("a" ++ "b") := by
  refine ⟨by decide, by decide⟩

/-- C4 amended: the pane always shows a full fresh snapshot — the chunks of
the selected task in arrival order, unaltered and uncoalesced, but joined
with one inserted newline between consecutive chunks (`logs.join('\n')`):
on selection switch it shows the target task's full current log, and on
data arrival the repaint includes the new chunk. -/
theorem updateLogBox_snapshot (s : LogViewer) (i : Nat) (t : Task) (c : String)
    (hsel : s.currentTaskIndex = (i : Int)) (ht : s.tasks.get? i = some t) :
    updateLogBoxContent s = some (String.intercalate "\n" t.logs) ∧
    updateLogBoxContent (onData s i c) =
      some (String.intercalate "\n" (t.logs ++ [c])) ∧
    (∀ (j : Nat) (u : Task), s.tasks.get? j = some u →
      updateLogBoxContent (handleTaskSelect s (j : Int)) =
        some (String.intercalate "\n" u.logs)) := by
  have hread : ∀ (s' : LogViewer) (k : Nat) (u : Task),
      s'.currentTaskIndex = (k : Int) → s'.tasks.get? k = some u →
      updateLogBoxContent s' = some (String.intercalate "\n" u.logs) := by
    intro s' k u hsel' hu
    unfold updateLogBoxContent listGetI
    rw [hsel', if_pos (Int.natCast_nonneg k), Int.toNat_natCast, hu]
    rfl
  refine ⟨hread s i t hsel ht, ?_, ?_⟩
  · have hsel2 : (onData s i c).currentTaskIndex = (i : Int) := by
      unfold onData
      cases h : s.tasks.get? i with
      | none => exact hsel
      | some u => exact hsel
    exact hread (onData s i c) i { t with logs := t.logs ++ [c] } hsel2
      (onData_get?_eq s i c t ht)
  · intro j u hu
    exact hread (handleTaskSelect s (j : Int)) j u rfl hu

/-- Concrete instance of amended C4: in the two-task state, task 0
selected, a fresh chunk shows up in the repaint and switching to task 1
shows its full log. -/
theorem updateLogBox_snapshot_witness :
    updateLogBoxContent stateTwo = some (String.intercalate "\n" task0Two.logs) ∧
    updateLogBoxContent (onData stateTwo 0 "hi") =
      some (String.intercalate "\n" (task0Two.logs ++ ["hi"])) := by
  have h := updateLogBox_snapshot stateTwo 0 task0Two "hi" (by decide) (by decide)
  exact ⟨h.1, h.2.1⟩

/-! ## C3: spawn failure is NOT captured locally (correcting the claim) -/

/-- Refutes C3 as stated: when the spawn of task 0 (of two) throws, the
run aborts with the exception escaping `startTasks`, and task 0 is *not*
moved to Exited: it stays `Running` with no exit code and an empty log —
no sentinel code, no explanatory line. -/
theorem spawn_failure_cex :
    (startTasks (fun i => decide (i ≠ 0)) (LogViewer.init optsTwo)).2 =
      some "spawn threw for task 0" ∧
    (startTasks (fun i => decide (i ≠ 0)) (LogViewer.init optsTwo)).1.tasks.get? 0 =
      some (mkTask "a" 0) ∧
    (mkTask "a" 0).isRunning = true ∧
    (mkTask "a" 0).exitCode = none ∧
    (mkTask "a" 0).logs = [] := by
  exact ⟨rfl, rfl, rfl, rfl, rfl⟩

lemma startTasksGo_fail (spawnOk : Nat → Bool) (b : Nat) (ts : List Task)
    (k : Nat) (t : Task) (ht : ts.get? k = some t) (hrun : t.isRunning = true)
    (hfail : spawnOk (b + k) = false)
    (hfirst : ∀ j, j < k → ∀ u, ts.get? j = some u → u.isRunning = true →
      spawnOk (b + j) = true) :
    ((startTasksGo spawnOk b ts).2).isSome = true ∧
    (startTasksGo spawnOk b ts).1.drop k = ts.drop k := by
  induction ts generalizing b k with
  | nil => cases ht
  | cons t0 rest ih =>
      cases k with
      | zero =>
          have ht0 : t0 = t := Option.some.inj ht
          subst ht0
          rw [Nat.add_zero] at hfail
          unfold startTasksGo
          rw [if_pos hrun, if_neg (by rw [hfail]; exact Bool.false_ne_true)]
          exact ⟨rfl, rfl⟩
      | succ k' =>
          have ht' : rest.get? k' = some t := ht
          have hb : b + 1 + k' = b + (k' + 1) := by omega
          have hfail' : spawnOk (b + 1 + k') = false := by
            rw [hb]
            exact hfail
          have hfirst' : ∀ j, j < k' → ∀ u, rest.get? j = some u →
              u.isRunning = true → spawnOk (b + 1 + j) = true := by
            intro j hj u hu hur
            have : b + 1 + j = b + (j + 1) := by omega
            rw [this]
            exact hfirst (j + 1) (Nat.succ_lt_succ hj) u hu hur
          by_cases hr0 : t0.isRunning = true
          · have hsp : spawnOk b = true := by
              have := hfirst 0 (Nat.succ_pos k') t0 rfl hr0
              rwa [Nat.add_zero] at this
            obtain ⟨h1, h2⟩ := ih b.succ k' ht' hfail' hfirst'
            unfold startTasksGo
            rw [if_pos hr0, if_pos hsp]
            exact ⟨h1, by rw [List.drop_succ_cons, List.drop_succ_cons]; exact h2⟩
          · obtain ⟨h1, h2⟩ := ih b.succ k' ht' hfail' hfirst'
            unfold startTasksGo
            rw [if_neg hr0]
            exact ⟨h1, by rw [List.drop_succ_cons, List.drop_succ_cons]; exact h2⟩

/-- C3 amended: the source wraps `pty.spawn` in no `try`/`catch`, so a
spawn failure is not captured locally: the exception propagates out of
`startTasks` and aborts the run; the failing task keeps its state — still
`Running`, no sentinel exit code, no explanatory log line — and the tasks
at and after the failing index are left exactly as they were (never
started). -/
theorem startTasks_spawn_failure (s : LogViewer) (spawnOk : Nat → Bool)
    (k : Nat) (t : Task) (ht : s.tasks.get? k = some t)
    (hrun : t.isRunning = true) (hfail : spawnOk k = false)
    (hfirst : ∀ j, j < k → ∀ u, s.tasks.get? j = some u → u.isRunning = true →
      spawnOk j = true) :
    ((startTasks spawnOk s).2).isSome = true ∧
    (startTasks spawnOk s).1.tasks.get? k = some t ∧
    (∀ m : Nat, (startTasks spawnOk s).1.tasks.get? (k + m) = s.tasks.get? (k + m)) := by
  have hfail0 : spawnOk (0 + k) = false := by rwa [Nat.zero_add]
  have hfirst0 : ∀ j, j < k → ∀ u, s.tasks.get? j = some u → u.isRunning = true →
      spawnOk (0 + j) = true := by
    intro j hj u hu hur
    rw [Nat.zero_add]
    exact hfirst j hj u hu hur
  obtain ⟨h1, h2⟩ := startTasksGo_fail spawnOk 0 s.tasks k t ht hrun hfail0 hfirst0
  have hget : ∀ m : Nat,
      (startTasksGo spawnOk 0 s.tasks).1.get? (k + m) = s.tasks.get? (k + m) := by
    intro m
    rw [← List.get?_drop, ← List.get?_drop, h2]
  refine ⟨h1, ?_, hget⟩
  have := hget 0
  rwa [Nat.add_zero, ht] at this

/-- Concrete instance of amended C3: spawn of task 0 throws, the run
aborts, and task 0 is untouched. -/
theorem startTasks_spawn_failure_witness :
    ((startTasks (fun i => decide (i ≠ 0)) (LogViewer.init optsTwo)).2).isSome = true ∧
    (startTasks (fun i => decide (i ≠ 0)) (LogViewer.init optsTwo)).1.tasks.get? 0 =
      some (mkTask "a" 0) := by
  have h := startTasks_spawn_failure (LogViewer.init optsTwo)
    (fun i => decide (i ≠ 0)) 0 (mkTask "a" 0) (by decide) (by decide) (by decide)
    (fun j hj => absurd hj (Nat.not_lt_zero j))
  exact ⟨h.1, h.2.1⟩

/-! ## C2: race safety of kill propagation -/

/-- How one recorded exit (if any) acts on a task lookup. -/
def exitUpdate (o : Option Int) (x : Option Task) : Option Task :=
  match o with
  | some c => x.map (applyExit c)
  | none => x

lemma exitUpdate_none (x : Option Task) : exitUpdate none x = x := rfl

lemma exitUpdate_some (c : Int) (x : Option Task) :
    exitUpdate (some c) x = x.map (applyExit c) := rfl

lemma lookupExit_cons (j i : Nat) (c : Int) (rest : List (Nat × Int)) :
    lookupExit j ((i, c) :: rest) =
      if i = j then some c else lookupExit j rest := rfl

lemma lookupExit_none_iff (j : Nat) (es : List (Nat × Int)) :
    lookupExit j es = none ↔ j ∉ es.map Prod.fst := by
  induction es with
  | nil => simp [lookupExit]
  | cons p rest ih =>
      obtain ⟨i, c⟩ := p
      rw [lookupExit_cons, List.map_cons, List.mem_cons]
      by_cases h : i = j
      · subst h
        simp
      · rw [if_neg h]
        constructor
        · intro hl hmem
          rcases hmem with he | hm
          · exact h he.symm
          · exact (ih.1 hl) hm
        · intro hnm
          exact ih.2 (fun hm => hnm (Or.inr hm))

lemma lookupExit_some_iff (j : Nat) (c : Int) (es : List (Nat × Int))
    (hnd : (es.map Prod.fst).Nodup) :
    lookupExit j es = some c ↔ (j, c) ∈ es := by
  induction es with
  | nil => simp [lookupExit]
  | cons p rest ih =>
      obtain ⟨i, c'⟩ := p
      rw [List.map_cons, List.nodup_cons] at hnd
      obtain ⟨hni, hnd'⟩ := hnd
      rw [lookupExit_cons, List.mem_cons]
      by_cases h : i = j
      · subst h
        rw [if_pos rfl]
        constructor
        · intro hs
          exact Or.inl (by rw [Option.some.inj hs])
        · rintro (he | hm)
          · rw [Prod.mk.injEq] at he
            rw [he.2]
          · exact absurd (List.mem_map_of_mem Prod.fst hm) hni
      · rw [if_neg h]
        rw [ih hnd']
        constructor
        · exact Or.inr
        · rintro (he | hm)
          · exact absurd (congrArg Prod.fst he).symm h
          · exact hm

lemma lookupExit_perm (es1 es2 : List (Nat × Int)) (hperm : es1.Perm es2)
    (hnd : (es1.map Prod.fst).Nodup) (j : Nat) :
    lookupExit j es1 = lookupExit j es2 := by
  have hnd2 : (es2.map Prod.fst).Nodup := hnd.perm (hperm.map Prod.fst)
  cases h1 : lookupExit j es1 with
  | some c =>
      have hm := (lookupExit_some_iff j c es1 hnd).1 h1
      exact ((lookupExit_some_iff j c es2 hnd2).2 (hperm.mem_iff.1 hm)).symm
  | none =>
      have hm := (lookupExit_none_iff j es1).1 h1
      have hm2 : j ∉ es2.map Prod.fst :=
        fun hc => hm (((hperm.map Prod.fst).mem_iff).2 hc)
      exact ((lookupExit_none_iff j es2).2 hm2).symm

lemma onExit_get?_self (s : LogViewer) (i : Nat) (c : Int) :
    (onExit s i c).1.tasks.get? i = (s.tasks.get? i).map (applyExit c) := by
  cases h : s.tasks.get? i with
  | none =>
      rw [onExit_fst_none s i c h, h]
      rfl
  | some t =>
      rw [onExit_fst s i c t h]
      show (s.tasks.set i _).get? i = _
      rw [List.get?_set_eq, h]
      rfl

lemma processExits_cons (s : LogViewer) (i : Nat) (c : Int)
    (rest : List (Nat × Int)) :
    (processExits s ((i, c) :: rest)).1 = (processExits (onExit s i c).1 rest).1 := rfl

/-- Canonical form: after a batch of exit events with pairwise distinct
task indices, a task's record is its original one, exited with its own
recorded code if it had one. -/
lemma processExits_get? (s : LogViewer) (es : List (Nat × Int))
    (hnd : (es.map Prod.fst).Nodup) (j : Nat) :
    (processExits s es).1.tasks.get? j =
      exitUpdate (lookupExit j es) (s.tasks.get? j) := by
  induction es generalizing s with
  | nil => rfl
  | cons p rest ih =>
      obtain ⟨i, c⟩ := p
      rw [List.map_cons, List.nodup_cons] at hnd
      obtain ⟨hni, hnd'⟩ := hnd
      rw [processExits_cons, ih _ hnd', lookupExit_cons]
      by_cases hij : i = j
      · subst hij
        rw [if_pos rfl, exitUpdate_some,
            (lookupExit_none_iff i rest).2 hni, exitUpdate_none]
        exact onExit_get?_self s i c
      · rw [if_neg hij, onExit_get?_ne s i c j hij]

lemma processExits_fields (s : LogViewer) (es : List (Nat × Int)) :
    (processExits s es).1.currentTaskIndex = s.currentTaskIndex ∧
    (processExits s es).1.options = s.options ∧
    (processExits s es).1.spinnerIntervals = s.spinnerIntervals := by
  induction es generalizing s with
  | nil => exact ⟨rfl, rfl, rfl⟩
  | cons p rest ih =>
      obtain ⟨i, c⟩ := p
      rw [processExits_cons]
      obtain ⟨h1, h2, h3⟩ := ih (onExit s i c).1
      have hf : (onExit s i c).1.currentTaskIndex = s.currentTaskIndex ∧
          (onExit s i c).1.options = s.options ∧
          (onExit s i c).1.spinnerIntervals = s.spinnerIntervals := by
        cases h : s.tasks.get? i with
        | none =>
            rw [onExit_fst_none s i c h]
            exact ⟨rfl, rfl, rfl⟩
        | some t =>
            rw [onExit_fst s i c t h]
            exact ⟨rfl, rfl, rfl⟩
      exact ⟨h1.trans hf.1, h2.trans hf.2.1, h3.trans hf.2.2⟩

lemma LogViewer.ext' (a b : LogViewer) (h1 : a.tasks = b.tasks)
    (h2 : a.currentTaskIndex = b.currentTaskIndex) (h3 : a.options = b.options)
    (h4 : a.spinnerIntervals = b.spinnerIntervals) : a = b := by
  cases a
  cases b
  dsimp only at h1 h2 h3 h4
  subst h1
  subst h2
  subst h3
  subst h4
  rfl

/-- C2: kill propagation is race-safe: processing the complete set of exit
events (including those of tasks killed by an earlier broadcast) in *any*
order yields the same final supervisor state; every kill ever issued by
`killAllTasks` targets a task that is running at that moment — an already
exited (or never-spawned) task is skipped, so re-killing is a no-op — and
once every task's exit has been processed, re-evaluating the kill policy
issues nothing further. -/
theorem kill_propagation_race_safe (s : LogViewer) (es1 es2 : List (Nat × Int))
    (hperm : es1.Perm es2) (hnd : (es1.map Prod.fst).Nodup) :
    (processExits s es1).1 = (processExits s es2).1 ∧
    (∀ (ts : List Task) (j : Nat), j ∈ killAllTasks ts →
      ∃ t, ts.get? j = some t ∧ t.isRunning = true) ∧
    ((∀ (j : Nat) (u : Task), s.tasks.get? j = some u → u.isRunning = true →
        j ∈ es1.map Prod.fst) →
      killAllTasks (processExits s es1).1.tasks = []) := by
  have hnd2 : (es2.map Prod.fst).Nodup := hnd.perm (hperm.map Prod.fst)
  refine ⟨?_, ?_, ?_⟩
  · apply LogViewer.ext'
    · apply List.ext
      intro n
      rw [processExits_get? s es1 hnd n, processExits_get? s es2 hnd2 n,
          lookupExit_perm es1 es2 hperm hnd n]
    · rw [(processExits_fields s es1).1, (processExits_fields s es2).1]
    · rw [(processExits_fields s es1).2.1, (processExits_fields s es2).2.1]
    · rw [(processExits_fields s es1).2.2, (processExits_fields s es2).2.2]
  · intro ts j hj
    obtain ⟨t, h1, h2, _⟩ := (killAllTasks_mem ts j).1 hj
    exact ⟨t, h1, h2⟩
  · intro hcov
    unfold killAllTasks
    apply List.filter_eq_nil.2
    intro a _
    have hfin := processExits_get? s es1 hnd a
    cases hlu : lookupExit a es1 with
    | some c =>
        rw [hlu, exitUpdate_some] at hfin
        rw [hfin]
        cases s.tasks.get? a with
        | none => simp
        | some u => simp [applyExit]
    | none =>
        rw [hlu, exitUpdate_none] at hfin
        rw [hfin]
        cases hsa : s.tasks.get? a with
        | none => simp
        | some u =>
            intro hc
            have hur : u.isRunning = true := by
              have hand : (u.isRunning && u.hasProcess) = true := hc
              rw [Bool.and_eq_true] at hand
              exact hand.1
            exact (lookupExit_none_iff a es1).1 hlu (hcov a u hsa hur)

/-- Concrete instance of C2: the three exits of `stateFail3` processed in
two different orders reach the same final state, and once all three are
processed the policy issues no further kill. -/
theorem kill_propagation_race_safe_witness :
    (processExits stateFail3 [(0, 1), (1, 0), (2, 0)]).1 =
      (processExits stateFail3 [(2, 0), (0, 1), (1, 0)]).1 ∧
    killAllTasks (processExits stateFail3 [(0, 1), (1, 0), (2, 0)]).1.tasks = [] := by
  have h := kill_propagation_race_safe stateFail3
    [(0, 1), (1, 0), (2, 0)] [(2, 0), (0, 1), (1, 0)] (by decide) (by decide)
  refine ⟨h.1, h.2.2 ?_⟩
  intro j u hu hur
  have hj : j < 3 := by
    have := get?_some_lt hu
    simpa using this
  interval_cases j <;> decide

end ConcurrentlyUI
